import Mathlib

/-!
# Verification of the transaction/attachment matching engine

A shallow embedding of `src/match.py`, a reconciliation engine matching bank
transactions against invoice/receipt attachments, together with theorems
settling the specification's claims about it.

Modelling conventions:
* Python `Optional[str]` fields become `Option String`; Python truthiness of a
  string option (`if ref:`) becomes `strTruthy`.
* Python floats become `ℚ` (the engine only ever forms sums, differences and
  quotients of small rationals, and all of its comparisons carry an explicit
  `1e-6` epsilon precisely so that float rounding is irrelevant).
* `datetime` values become proleptic-Gregorian day numbers (`ℕ`), so the
  `(d1 - d2).days` of the source is an integer difference of day numbers.
* Python `str.replace(" ", "")` / `.upper()` / `.lower()` are modelled on the
  underlying character list; `str.isdigit` is modelled for decimal digits 0-9.
-/

set_option maxRecDepth 8000

/- The arithmetic of `ℚ` is `@[irreducible]` in Mathlib, which blocks the
`decide`-based evaluation of the engine on the concrete witness records; the
kernel ignores reducibility, so re-marking the four operations semireducible
only lets the elaborator perform the same evaluation the kernel certifies. -/
attribute [local semireducible] Rat.add Rat.sub Rat.mul Rat.inv

namespace MatchSpec

/-- A bank transaction (`Transaction` dict in the source): every field except
`id` may be absent. -/
structure Transaction where
  id : Int
  amount : Option ℚ
  date : Option String
  reference : Option String
  contact : Option String
  deriving DecidableEq, Repr

/-- The `data` sub-dictionary of an attachment. -/
structure AttachmentData where
  supplier : Option String
  issuer : Option String
  recipient : Option String
  total_amount : Option ℚ
  reference : Option String
  due_date : Option String
  invoicing_date : Option String
  receiving_date : Option String
  deriving DecidableEq, Repr

/-- An invoice/receipt attachment. -/
structure Attachment where
  id : Int
  data : AttachmentData
  deriving DecidableEq, Repr

/-- Python truthiness of an `Optional[str]`: `None` and `""` are falsy. -/
def strTruthy : Option String → Bool
  | none => false
  | some s => !(s.data.isEmpty)

/-- `_normalize_reference`: `None`/`""` ↦ `none`; otherwise remove the space
characters, uppercase, and if the result is purely numeric strip leading
zeros (an all-zero string collapsing to `"0"`). -/
def _normalize_reference (ref : Option String) : Option String :=
  match ref with
  | none => none
  | some s =>
    if s.data.isEmpty then none
    else
      let cleaned := (s.data.filter (fun c => c ≠ ' ')).map Char.toUpper
      let final :=
        if !cleaned.isEmpty && cleaned.all Char.isDigit then
          let stripped := cleaned.dropWhile (fun c => c = '0')
          if stripped.isEmpty then ['0'] else stripped
        else cleaned
      some (String.mk final)

/-- The §4.1 normalization sentence exactly as the spec words it: strip ALL
whitespace (not only the space character), uppercase, and strip leading
zeros of an all-digit result.  Written from the spec's words, to be compared
with the source's `_normalize_reference`. -/
def normalizeReference_specAllWhitespace (ref : Option String) : Option String :=
  match ref with
  | none => none
  | some s =>
    if s.data.isEmpty then none
    else
      let cleaned := (s.data.filter (fun c => !c.isWhitespace)).map Char.toUpper
      let final :=
        if !cleaned.isEmpty && cleaned.all Char.isDigit then
          let stripped := cleaned.dropWhile (fun c => c = '0')
          if stripped.isEmpty then ['0'] else stripped
        else cleaned
      some (String.mk final)

/-- The `_STOP_WORDS` constant of the source. -/
def _STOP_WORDS : List String := ["oy", "oyj", "ltd", "tmi", "inc", "oy.", "oy,"]

/-- Splits a character list into the maximal runs of ASCII alphanumeric
characters, the `_TOKEN_RE.findall` of the source. -/
def tokenRuns : List Char → List Char → List (List Char)
  | [], acc => if acc.isEmpty then [] else [acc.reverse]
  | c :: cs, acc =>
    if c.isAlphanum then tokenRuns cs (c :: acc)
    else if acc.isEmpty then tokenRuns cs []
    else acc.reverse :: tokenRuns cs []

/-- `_tokenize`: lowercased alphanumeric tokens of a name, stop words
removed, as a finite set. -/
def _tokenize (name : Option String) : Finset String :=
  match name with
  | none => ∅
  | some s =>
    if s.data.isEmpty then ∅
    else
      (((tokenRuns s.data []).map
          (fun r => String.mk (r.map Char.toLower))).filter
        (fun t => t ∉ _STOP_WORDS)).toFinset

/-- `_name_similarity`: Jaccard index of the two token sets, `0` when either
set is empty or the intersection is empty. -/
def _name_similarity (a b : Option String) : ℚ :=
  let ta := _tokenize a
  let tb := _tokenize b
  if ta = ∅ ∨ tb = ∅ then 0
  else
    let inter := (ta ∩ tb).card
    if inter = 0 then 0
    else (inter : ℚ) / ((ta ∪ tb).card : ℚ)

/-- Python `str.lower()` on our character-list model of strings. -/
def strLower (s : String) : String := String.mk (s.data.map Char.toLower)

/-- `_attachment_names`: the supplier/issuer/recipient values that are
non-empty and are not the company itself. -/
def _attachment_names (att : Attachment) : List String :=
  [att.data.supplier, att.data.issuer, att.data.recipient].filterMap
    (fun v =>
      match v with
      | none => none
      | some s =>
        if !(s.data.isEmpty) && strLower s ≠ "example company oy" then some s
        else none)

/-- `_best_name_similarity`: maximum similarity of the contact against the
attachment's counterparty names; `0` for a falsy contact. -/
def _best_name_similarity (contact : Option String) (att : Attachment) : ℚ :=
  if strTruthy contact then
    (_attachment_names att).foldl (fun b n => max b (_name_similarity contact (some n))) 0
  else 0

/-! ## Dates

`_parse_date` in the source is `datetime.strptime(value, "%Y-%m-%d")` guarded
by `try/except`.  CPython's `%Y` matches exactly four digits, `%m` one or two
digits valued 1..12, `%d` one or two digits valued 1..31, the whole string
must be consumed, and `datetime` construction then validates the day against
the month (and requires year ≥ 1).  We model a parsed date as its
proleptic-Gregorian Julian day number, so date subtraction is `Int`
subtraction of day numbers. -/

/-- Value of an all-digit character run; `none` if empty or not all digits. -/
def digitsVal (l : List Char) : Option Nat :=
  if l.isEmpty || !(l.all Char.isDigit) then none
  else some (l.foldl (fun n c => 10 * n + (c.toNat - '0'.toNat)) 0)

/-- Splits a character list on `'-'` (Python `str.split("-")` semantics). -/
def splitDash : List Char → List (List Char)
  | [] => [[]]
  | c :: cs =>
    if c = '-' then [] :: splitDash cs
    else
      match splitDash cs with
      | g :: gs => (c :: g) :: gs
      | [] => [[c]]

/-- Gregorian leap-year test. -/
def isLeap (y : Nat) : Bool := y % 4 = 0 && (y % 100 ≠ 0 || y % 400 = 0)

/-- Number of days in a month of a given year. -/
def daysInMonth (y m : Nat) : Nat :=
  if m = 2 then (if isLeap y then 29 else 28)
  else if m = 4 ∨ m = 6 ∨ m = 9 ∨ m = 11 then 30
  else 31

/-- Julian day number of a proleptic-Gregorian date with year ≥ 1. -/
def jdn (y m d : Nat) : Nat :=
  let a := (14 - m) / 12
  let y' := y + 4800 - a
  let m' := m + 12 * a - 3
  d + (153 * m' + 2) / 5 + 365 * y' + y' / 4 - y' / 100 + y' / 400 - 32045

/-- A `%m`/`%d` field: one or two digits, value within `1..cap`. -/
def field2 (l : List Char) (cap : Nat) : Option Nat :=
  match digitsVal l with
  | none => none
  | some v =>
    if (l.length = 1 ∨ l.length = 2) ∧ 1 ≤ v ∧ v ≤ cap then some v else none

/-- `_parse_date`: `None`/`""`/non-`YYYY-MM-DD` input ↦ `none`, otherwise the
day number of the (validated) calendar date. -/
def _parse_date (value : Option String) : Option Nat :=
  match value with
  | none => none
  | some s =>
    if s.data.isEmpty then none
    else
      match splitDash s.data with
      | [ys, ms, ds] =>
        match digitsVal ys, field2 ms 12, field2 ds 31 with
        | some y, some m, some d =>
          if ys.length = 4 ∧ 1 ≤ y ∧ d ≤ daysInMonth y m then some (jdn y m d)
          else none
        | _, _, _ => none
      | _ => none

/-- `_date_distance_days`: minimum absolute day difference between the
transaction date and the attachment's parseable dates; `10000` if none
parse. -/
def _date_distance_days (txDate : Nat) (att : Attachment) : Nat :=
  let parsed := [_parse_date att.data.due_date,
                 _parse_date att.data.invoicing_date,
                 _parse_date att.data.receiving_date].filterMap id
  let distances := parsed.map (fun d => ((d : Int) - (txDate : Int)).natAbs)
  match distances with
  | [] => 10000
  | x :: xs => xs.foldl min x

/-! ## Amount and reference matching -/

/-- The `1e-6` epsilon of the source's float comparisons. -/
def eps : ℚ := 1 / 1000000

/-- `_is_amount_match`: true when the two amounts agree within `eps`, either
directly or after taking the transaction amount's absolute value. -/
def _is_amount_match (tx : Transaction) (att : Attachment) : Bool :=
  match tx.amount, att.data.total_amount with
  | some a, some b => |a - b| < eps ∨ |(|a|) - b| < eps
  | _, _ => false

/-- `_reference_match`: both references normalize to `some` and the
normalized strings are equal. -/
def _reference_match (tx : Transaction) (att : Attachment) : Bool :=
  match _normalize_reference tx.reference,
        _normalize_reference att.data.reference with
  | some a, some b => a = b
  | _, _ => false

/-! ## Candidate ranking -/

/-- A scored candidate, the `(record, composite_score, date_distance)` tuple
of the source. -/
structure Scored (α : Type) where
  item : α
  score : ℚ
  dist : Nat
  deriving DecidableEq, Repr

/-- Strict order underlying the sort key `(-score, dateDistance, id)`:
higher score first, then smaller date distance, then smaller id. -/
def scoredLt {α : Type} (recId : α → Int) (a b : Scored α) : Prop :=
  b.score < a.score ∨
    (a.score = b.score ∧
      (a.dist < b.dist ∨ (a.dist = b.dist ∧ recId a.item < recId b.item)))

instance {α : Type} (recId : α → Int) (a b : Scored α) :
    Decidable (scoredLt recId a b) := by
  unfold scoredLt; infer_instance

/-- The fold step of `selectBest`: keep the earlier candidate unless the new
one strictly precedes it. -/
def bestStep {α : Type} (recId : α → Int) (b x : Scored α) : Scored α :=
  if scoredLt recId x b then x else b

/-- `_select_best`: the head of the stable sort by `(-score, dist, id)`,
i.e. the earliest candidate that no other candidate strictly precedes. -/
def selectBest {α : Type} (recId : α → Int) : List (Scored α) → Option (Scored α)
  | [] => none
  | c :: cs => some (cs.foldl (bestStep recId) c)

/-- The date-proximity bonus: `1 - dist/30` within the 30-day window, else
`0` (computed inline in both source functions). -/
def dateBonus (dist : Nat) : ℚ :=
  if dist ≤ 30 then 1 - (dist : ℚ) / 30 else 0

/-! ## `find_attachment` -/

/-- Phase 1 of `find_attachment`: when the transaction's normalized
reference is truthy, the first attachment with a reference match. -/
def refPhaseA (tx : Transaction) (atts : List Attachment) : Option Attachment :=
  if strTruthy (_normalize_reference tx.reference) then
    atts.find? (fun a => _reference_match tx a)
  else none

/-- The amount-gated candidate list of `find_attachment`: each amount-matched
attachment with its composite score `1 + nameSim + dateBonus` and its date
distance. -/
def attCandidates (tx : Transaction) (txDate : Nat) (atts : List Attachment) :
    List (Scored Attachment) :=
  atts.filterMap (fun att =>
    if _is_amount_match tx att then
      let dist := _date_distance_days txDate att
      let nameSim := _best_name_similarity tx.contact att
      some ⟨att, 1 + nameSim + dateBonus dist, dist⟩
    else none)

/-- `find_attachment`: reference short-circuit, then amount-gated scoring
with the contact-dependent acceptance policy. -/
def find_attachment (tx : Transaction) (atts : List Attachment) :
    Option Attachment :=
  match refPhaseA tx atts with
  | some a => some a
  | none =>
    match _parse_date tx.date with
    | none => none
    | some txDate =>
      let cands := attCandidates tx txDate atts
      if cands.isEmpty then none
      else if strTruthy tx.contact then
        let filtered := cands.filter
          (fun c => _best_name_similarity tx.contact c.item ≥ 1 / 2)
        if filtered.isEmpty then none
        else (selectBest (fun a => a.id) filtered).map (fun c => c.item)
      else
        let exactDate := cands.filter (fun c => c.dist = 0)
        if exactDate.length = 1 then exactDate.head?.map (fun c => c.item)
        else if !exactDate.isEmpty then
          let best := selectBest (fun a => a.id) exactDate
          let topScore := exactDate.filter (fun c => |c.score - (1 + 0 + 1)| < eps)
          if topScore.length = 1 then best.map (fun c => c.item) else none
        else none

/-! ## `find_transaction` -/

/-- Phase 1 of `find_transaction`: when the attachment's normalized
reference is truthy, the first transaction with a reference match. -/
def refPhaseT (att : Attachment) (txs : List Transaction) : Option Transaction :=
  if strTruthy (_normalize_reference att.data.reference) then
    txs.find? (fun tx => _reference_match tx att)
  else none

/-- The candidate list of `find_transaction`: amount-matched transactions
that themselves have a parseable date, scored like `attCandidates` (the
source inlines the same name-similarity loop guarded by contact
truthiness, which is exactly `_best_name_similarity`). -/
def txCandidates (att : Attachment) (txs : List Transaction) :
    List (Scored Transaction) :=
  txs.filterMap (fun tx =>
    if _is_amount_match tx att then
      match _parse_date tx.date with
      | none => none
      | some txDate =>
        let dist := _date_distance_days txDate att
        let nameSim :=
          if strTruthy tx.contact then
            (_attachment_names att).foldl
              (fun b n => max b (_name_similarity tx.contact (some n))) 0
          else 0
        some ⟨tx, 1 + nameSim + dateBonus dist, dist⟩
    else none)

/-- `find_transaction`: reference short-circuit, then amount-gated scoring
with the names/contact-dependent acceptance policy and the strict same-day
fallback. -/
def find_transaction (att : Attachment) (txs : List Transaction) :
    Option Transaction :=
  match refPhaseT att txs with
  | some t => some t
  | none =>
    let cands := txCandidates att txs
    if cands.isEmpty then none
    else
      let hasNames := !(_attachment_names att).isEmpty
      let withContact := cands.filter (fun c => strTruthy c.item.contact)
      let viaName : Option Transaction :=
        if hasNames && !withContact.isEmpty then
          let filtered := withContact.filter (fun c => c.score ≥ 3 / 2)
          if filtered.isEmpty then none
          else (selectBest (fun t => t.id) filtered).map (fun c => c.item)
        else none
      match viaName with
      | some t => some t
      | none =>
        let exactDate := cands.filter (fun c => c.dist = 0)
        if exactDate.length = 1 then exactDate.head?.map (fun c => c.item)
        else none

/-! ## Concrete fixture records (used by the witnesses) -/

/-- Builds attachment data with only supplier, reference, due date and
total amount populated. -/
def wAttData (sup ref due : Option String) (amt : Option ℚ) : AttachmentData :=
  ⟨sup, none, none, amt, ref, due, none, none⟩

def wAtt1 : Attachment :=
  ⟨3001, wAttData (some "Acme Tools Oy") (some "00123") (some "2024-01-10") (some 500)⟩

def wAtt2 : Attachment :=
  ⟨3002, wAttData (some "Beta Corp") none (some "2024-01-10") (some 500)⟩

def wAtt3 : Attachment :=
  ⟨3003, wAttData (some "Gamma Works") none (some "2024-01-15") (some 250)⟩

def wTx1 : Transaction :=
  ⟨2001, some (-400), some "2024-03-01", some "123 ", some "Totally Different"⟩

def wTx2 : Transaction :=
  ⟨2002, some (-500), some "2024-01-10", none, none⟩

def wTx3 : Transaction :=
  ⟨2003, some (-250), some "2024-01-15", none, some "Gamma Works Extra Term"⟩

def wTx4 : Transaction :=
  ⟨2004, some (-250), some "2024-01-15", none, some "Unrelated Name"⟩

def wTxNoDate : Transaction :=
  ⟨2005, some (-500), some "not-a-date", none, none⟩

def wAttND : Attachment :=
  ⟨3009, wAttData (some "NoDate Supplies") none none (some 77)⟩

def wCand3 : Scored Attachment := ⟨wAtt3, 5 / 2, 0⟩

/-! ## Order facts about the ranking -/

theorem scoredLt_irrefl {α : Type} (r : α → Int) (a : Scored α) :
    ¬ scoredLt r a a := by
  rintro (h | ⟨-, h | ⟨-, h⟩⟩) <;> exact lt_irrefl _ h

theorem scoredLt_trans {α : Type} (r : α → Int) {a b c : Scored α}
    (h1 : scoredLt r a b) (h2 : scoredLt r b c) : scoredLt r a c := by
  unfold scoredLt at h1 h2 ⊢
  rcases h1 with h1 | ⟨e1, h1⟩ <;> rcases h2 with h2 | ⟨e2, h2⟩
  · exact Or.inl (h2.trans h1)
  · exact Or.inl (e2 ▸ h1)
  · exact Or.inl (by rw [e1]; exact h2)
  · exact Or.inr ⟨e1.trans e2, by omega⟩

theorem scoredLt_trichotomy {α : Type} (r : α → Int) (a b : Scored α) :
    scoredLt r a b ∨ scoredLt r b a ∨
      (a.score = b.score ∧ a.dist = b.dist ∧ r a.item = r b.item) := by
  unfold scoredLt
  rcases lt_trichotomy a.score b.score with h | h | h
  · right; left; exact Or.inl h
  · rcases lt_trichotomy a.dist b.dist with h' | h' | h'
    · left; exact Or.inr ⟨h, Or.inl h'⟩
    · rcases lt_trichotomy (r a.item) (r b.item) with h'' | h'' | h''
      · left; exact Or.inr ⟨h, Or.inr ⟨h', h''⟩⟩
      · right; right; exact ⟨h, h', h''⟩
      · right; left; exact Or.inr ⟨h.symm, Or.inr ⟨h'.symm, h''⟩⟩
    · right; left; exact Or.inr ⟨h.symm, Or.inl h'⟩
  · left; exact Or.inl h

theorem foldl_bestStep_mem {α : Type} (r : α → Int) (cs : List (Scored α)) :
    ∀ c : Scored α, cs.foldl (bestStep r) c ∈ c :: cs := by
  induction cs with
  | nil => intro c; simp
  | cons x xs ih =>
    intro c
    have h := ih (bestStep r c x)
    simp only [List.foldl_cons]
    rcases List.mem_cons.mp h with h' | h'
    · rw [h']
      by_cases hx : scoredLt r x c
      · simp [bestStep, hx]
      · simp [bestStep, hx]
    · simp [h']

theorem foldl_bestStep_not_lt {α : Type} (r : α → Int) (cs : List (Scored α)) :
    ∀ c y : Scored α, y ∈ c :: cs →
      ¬ scoredLt r y (cs.foldl (bestStep r) c) := by
  induction cs with
  | nil =>
    intro c y hy
    have hyc : y = c := by simpa using hy
    subst hyc
    simpa using scoredLt_irrefl r y
  | cons x xs ih =>
    intro c y hy
    simp only [List.foldl_cons]
    by_cases hx : scoredLt r x c
    · have hstep : bestStep r c x = x := if_pos hx
      rw [hstep]
      rcases List.mem_cons.mp hy with hyc | hy'
      · subst hyc
        intro hcb
        have hxb := ih x x (List.mem_cons_self x xs)
        exact hxb (scoredLt_trans r hx hcb)
      · exact ih x y hy'
    · have hstep : bestStep r c x = c := if_neg hx
      rw [hstep]
      rcases List.mem_cons.mp hy with hyc | hy'
      · subst hyc
        exact ih y y (List.mem_cons_self y xs)
      · rcases List.mem_cons.mp hy' with hyx | hy''
        · rw [← hyx] at hx
          intro hxb
          have hcb := ih c c (List.mem_cons_self c xs)
          rcases scoredLt_trichotomy r y c with h | h | h
          · exact hx h
          · exact hcb (scoredLt_trans r h hxb)
          · apply hcb
            unfold scoredLt at hxb ⊢
            rw [h.1, h.2.1, h.2.2] at hxb
            exact hxb
        · exact ih c y (List.mem_cons_of_mem c hy'')

theorem selectBest_eq_none {α : Type} (r : α → Int) (l : List (Scored α)) :
    selectBest r l = none ↔ l = [] := by
  cases l <;> simp [selectBest]

theorem selectBest_mem {α : Type} (r : α → Int) {l : List (Scored α)}
    {c : Scored α} (h : selectBest r l = some c) : c ∈ l := by
  cases l with
  | nil => simp [selectBest] at h
  | cons x xs =>
    simp only [selectBest, Option.some.injEq] at h
    have hm := foldl_bestStep_mem r xs x
    rw [h] at hm
    exact hm

theorem selectBest_not_beaten {α : Type} (r : α → Int) {l : List (Scored α)}
    {c : Scored α} (h : selectBest r l = some c) :
    ∀ y ∈ l, ¬ scoredLt r y c := by
  cases l with
  | nil => simp [selectBest] at h
  | cons x xs =>
    simp only [selectBest, Option.some.injEq] at h
    intro y hy
    have hnb := foldl_bestStep_not_lt r xs x y hy
    rwa [h] at hnb

theorem selectBest_strict {α : Type} (r : α → Int) {l : List (Scored α)}
    {c : Scored α} (hnd : (l.map (fun x => r x.item)).Nodup)
    (h : selectBest r l = some c) :
    ∀ y ∈ l, y ≠ c → scoredLt r c y := by
  intro y hy hne
  have hnb := selectBest_not_beaten r h y hy
  rcases scoredLt_trichotomy r c y with ht | ht | ht
  · exact ht
  · exact absurd ht hnb
  · exfalso
    have hmem := selectBest_mem r h
    have heq := List.inj_on_of_nodup_map hnd hmem hy ht.2.2
    exact hne heq.symm

/-! ## Bounds on the scoring primitives -/

theorem name_similarity_nonneg (a b : Option String) :
    0 ≤ _name_similarity a b := by
  unfold _name_similarity
  dsimp only
  split
  · exact le_refl 0
  · split
    · exact le_refl 0
    · positivity

theorem name_similarity_le_one (a b : Option String) :
    _name_similarity a b ≤ 1 := by
  unfold _name_similarity
  dsimp only
  split
  · exact zero_le_one
  · split
    · exact zero_le_one
    · rename_i hne hinter
      have hsub : (_tokenize a ∩ _tokenize b).card ≤ (_tokenize a ∪ _tokenize b).card :=
        Finset.card_le_card ((Finset.inter_subset_left).trans Finset.subset_union_left)
      have hpos : 0 < (_tokenize a ∪ _tokenize b).card := by
        omega
      rw [div_le_one (by exact_mod_cast hpos)]
      exact_mod_cast hsub

theorem le_foldl_max (l : List String) (f : String → ℚ) (x : ℚ) :
    x ≤ l.foldl (fun b n => max b (f n)) x := by
  induction l generalizing x with
  | nil => exact le_refl x
  | cons n ns ih =>
    simp only [List.foldl_cons]
    exact le_trans (le_max_left x (f n)) (ih (max x (f n)))

theorem foldl_max_le_one (l : List String) (f : String → ℚ) (x : ℚ)
    (hx : x ≤ 1) (hf : ∀ n ∈ l, f n ≤ 1) :
    l.foldl (fun b n => max b (f n)) x ≤ 1 := by
  induction l generalizing x with
  | nil => exact hx
  | cons n ns ih =>
    simp only [List.foldl_cons]
    exact ih (max x (f n)) (max_le hx (hf n (List.mem_cons_self n ns)))
      (fun m hm => hf m (List.mem_cons_of_mem n hm))

theorem best_name_similarity_nonneg (contact : Option String) (att : Attachment) :
    0 ≤ _best_name_similarity contact att := by
  unfold _best_name_similarity
  split
  · exact le_foldl_max _ _ 0
  · exact le_refl 0

theorem best_name_similarity_le_one (contact : Option String) (att : Attachment) :
    _best_name_similarity contact att ≤ 1 := by
  unfold _best_name_similarity
  split
  · exact foldl_max_le_one _ _ 0 zero_le_one
      (fun n _ => name_similarity_le_one contact (some n))
  · exact zero_le_one

theorem dateBonus_nonneg (d : Nat) : 0 ≤ dateBonus d := by
  unfold dateBonus
  split
  · rename_i h
    have : (d : ℚ) ≤ 30 := by exact_mod_cast h
    linarith
  · exact le_refl 0

theorem dateBonus_le_one (d : Nat) : dateBonus d ≤ 1 := by
  unfold dateBonus
  split
  · have : (0 : ℚ) ≤ (d : ℚ) / 30 := by positivity
    linarith
  · exact zero_le_one

theorem dateBonus_of_far (d : Nat) (h : 30 < d) : dateBonus d = 0 := by
  unfold dateBonus
  rw [if_neg (by omega)]

/-! ## Shape of the candidate lists -/

theorem attCandidates_mem_iff (tx : Transaction) (txDate : Nat)
    (atts : List Attachment) (c : Scored Attachment) :
    c ∈ attCandidates tx txDate atts ↔
      c.item ∈ atts ∧ _is_amount_match tx c.item = true ∧
        c.dist = _date_distance_days txDate c.item ∧
        c.score = 1 + _best_name_similarity tx.contact c.item + dateBonus c.dist := by
  unfold attCandidates
  rw [List.mem_filterMap]
  constructor
  · rintro ⟨att, hmem, hsome⟩
    by_cases hamt : _is_amount_match tx att
    · rw [if_pos hamt] at hsome
      injection hsome with hc
      subst hc
      exact ⟨hmem, hamt, rfl, rfl⟩
    · rw [if_neg hamt] at hsome
      exact absurd hsome (Option.noConfusion)
  · rintro ⟨hmem, hamt, hdist, hscore⟩
    refine ⟨c.item, hmem, ?_⟩
    rw [if_pos hamt]
    cases c with
    | mk item score dist =>
      simp only at hdist hscore ⊢
      subst hdist
      subst hscore
      rfl

theorem txCandidates_mem_iff (att : Attachment) (txs : List Transaction)
    (c : Scored Transaction) :
    c ∈ txCandidates att txs ↔
      c.item ∈ txs ∧ _is_amount_match c.item att = true ∧
        ∃ txDate, _parse_date c.item.date = some txDate ∧
          c.dist = _date_distance_days txDate att ∧
          c.score = 1 + _best_name_similarity c.item.contact att + dateBonus c.dist := by
  unfold txCandidates
  rw [List.mem_filterMap]
  constructor
  · rintro ⟨tx, hmem, hsome⟩
    by_cases hamt : _is_amount_match tx att
    · rw [if_pos hamt] at hsome
      cases hpd : _parse_date tx.date with
      | none => rw [hpd] at hsome; exact absurd hsome (Option.noConfusion)
      | some txDate =>
        rw [hpd] at hsome
        injection hsome with hc
        subst hc
        exact ⟨hmem, hamt, txDate, hpd, rfl, rfl⟩
    · rw [if_neg hamt] at hsome
      exact absurd hsome (Option.noConfusion)
  · rintro ⟨hmem, hamt, txDate, hpd, hdist, hscore⟩
    refine ⟨c.item, hmem, ?_⟩
    rw [if_pos hamt, hpd]
    cases c with
    | mk item score dist =>
      simp only at hdist hscore ⊢
      subst hdist
      subst hscore
      rfl

/-! ## Reference-phase helpers -/

theorem strTruthy_some_of_ne {r : String} (h : r ≠ "") :
    strTruthy (some r) = true := by
  rcases r with ⟨l⟩
  cases l with
  | nil => exact absurd rfl h
  | cons c cs => rfl

theorem refPhaseA_pos {tx : Transaction} {r : String} (atts : List Attachment)
    (h1 : _normalize_reference tx.reference = some r) (hne : r ≠ "") :
    refPhaseA tx atts = atts.find? (fun x => _reference_match tx x) := by
  unfold refPhaseA
  rw [h1, strTruthy_some_of_ne hne]
  simp

theorem refPhaseT_pos {att : Attachment} {r : String} (txs : List Transaction)
    (h2 : _normalize_reference att.data.reference = some r) (hne : r ≠ "") :
    refPhaseT att txs = txs.find? (fun x => _reference_match x att) := by
  unfold refPhaseT
  rw [h2, strTruthy_some_of_ne hne]
  simp

theorem find_attachment_of_refPhase {tx : Transaction} {atts : List Attachment}
    {a : Attachment} (h : refPhaseA tx atts = some a) :
    find_attachment tx atts = some a := by
  unfold find_attachment
  rw [h]

theorem find_transaction_of_refPhase {att : Attachment} {txs : List Transaction}
    {t : Transaction} (h : refPhaseT att txs = some t) :
    find_transaction att txs = some t := by
  unfold find_transaction
  rw [h]

/-! ## The claims -/

/-- C1: Reference primacy — when a transaction's and an attachment's
references normalize to the same non-empty string, `find_attachment` scans
the attachments in input order and returns the first reference match (so a
reference-matching attachment is returned regardless of any amount, date or
name mismatch), and `find_transaction` symmetrically returns the first
reference-matching transaction. -/
theorem C1_reference_primacy (tx : Transaction) (att : Attachment) (r : String)
    (atts : List Attachment) (txs : List Transaction)
    (hatt : att ∈ atts) (htx : tx ∈ txs)
    (h1 : _normalize_reference tx.reference = some r)
    (h2 : _normalize_reference att.data.reference = some r)
    (hne : r ≠ "") :
    (∃ a, find_attachment tx atts = some a ∧
        atts.find? (fun x => _reference_match tx x) = some a ∧
        _reference_match tx a = true) ∧
    (∃ t, find_transaction att txs = some t ∧
        txs.find? (fun x => _reference_match x att) = some t ∧
        _reference_match t att = true) := by
  have hrm : _reference_match tx att = true := by
    unfold _reference_match
    rw [h1, h2]
    simp
  constructor
  · have hex : (atts.find? (fun x => _reference_match tx x)).isSome := by
      rw [List.find?_isSome]
      exact ⟨att, hatt, hrm⟩
    obtain ⟨a, ha⟩ := Option.isSome_iff_exists.mp hex
    have hrp : refPhaseA tx atts = some a := by
      rw [refPhaseA_pos atts h1 hne]
      exact ha
    exact ⟨a, find_attachment_of_refPhase hrp, ha, List.find?_some ha⟩
  · have hex : (txs.find? (fun x => _reference_match x att)).isSome := by
      rw [List.find?_isSome]
      exact ⟨tx, htx, hrm⟩
    obtain ⟨t, ht⟩ := Option.isSome_iff_exists.mp hex
    have hrp : refPhaseT att txs = some t := by
      rw [refPhaseT_pos txs h2 hne]
      exact ht
    exact ⟨t, find_transaction_of_refPhase hrp, ht, by simpa using List.find?_some ht⟩

/-- Witness for C1 at a concrete pair: transaction reference `"123 "` and
attachment reference `"00123"` normalize to the same string `"123"` while
amount, date and name all disagree. -/
theorem C1_reference_primacy_witness :
    (∃ a, find_attachment wTx1 [wAtt2, wAtt1] = some a ∧
        [wAtt2, wAtt1].find? (fun x => _reference_match wTx1 x) = some a ∧
        _reference_match wTx1 a = true) ∧
    (∃ t, find_transaction wAtt1 [wTx2, wTx1] = some t ∧
        [wTx2, wTx1].find? (fun x => _reference_match x wAtt1) = some t ∧
        _reference_match t wAtt1 = true) :=
  C1_reference_primacy wTx1 wAtt1 "123" [wAtt2, wAtt1] [wTx2, wTx1]
    (by decide) (by decide) (by decide) (by decide) (by decide)

/-- Phase 2 of `find_attachment`, spelled out, once the reference phase has
failed and the transaction date has parsed. -/
theorem find_attachment_phase2 (tx : Transaction) (atts : List Attachment)
    (txDate : Nat) (hrp : refPhaseA tx atts = none)
    (hpd : _parse_date tx.date = some txDate) :
    find_attachment tx atts =
      (if (attCandidates tx txDate atts).isEmpty then none
       else if strTruthy tx.contact then
         (if ((attCandidates tx txDate atts).filter
              (fun c => _best_name_similarity tx.contact c.item ≥ 1 / 2)).isEmpty then
            none
          else (selectBest (fun a => a.id)
              ((attCandidates tx txDate atts).filter
                (fun c => _best_name_similarity tx.contact c.item ≥ 1 / 2))).map
              (fun c => c.item))
       else
         (if ((attCandidates tx txDate atts).filter (fun c => c.dist = 0)).length = 1 then
            ((attCandidates tx txDate atts).filter (fun c => c.dist = 0)).head?.map
              (fun c => c.item)
          else if !((attCandidates tx txDate atts).filter (fun c => c.dist = 0)).isEmpty then
            (if (((attCandidates tx txDate atts).filter (fun c => c.dist = 0)).filter
                  (fun c => |c.score - (1 + 0 + 1)| < eps)).length = 1 then
               (selectBest (fun a => a.id)
                  ((attCandidates tx txDate atts).filter (fun c => c.dist = 0))).map
                 (fun c => c.item)
             else none)
          else none)) := by
  unfold find_attachment
  rw [hrp, hpd]

/-- C2: in the no-contact branch of `find_attachment`, a unique exact-date
amount match is returned, and two or more exact-date matches yield `none`
unless exactly one of them scores within `1e-6` of the pure amount+date
value `2`. -/
theorem C2_no_contact_ambiguity (tx : Transaction) (atts : List Attachment)
    (txDate : Nat)
    (hrp : refPhaseA tx atts = none)
    (hpd : _parse_date tx.date = some txDate)
    (hc : strTruthy tx.contact = false) :
    (∀ c, (attCandidates tx txDate atts).filter (fun x => x.dist = 0) = [c] →
        find_attachment tx atts = some c.item) ∧
    (2 ≤ ((attCandidates tx txDate atts).filter (fun x => x.dist = 0)).length →
      (((attCandidates tx txDate atts).filter (fun x => x.dist = 0)).filter
          (fun x => |x.score - (1 + 0 + 1)| < eps)).length ≠ 1 →
      find_attachment tx atts = none) := by
  rw [find_attachment_phase2 tx atts txDate hrp hpd, hc]
  constructor
  · intro c hE
    have hcmem : c ∈ attCandidates tx txDate atts := by
      have : c ∈ (attCandidates tx txDate atts).filter (fun x => x.dist = 0) := by
        rw [hE]; exact List.mem_singleton.mpr rfl
      exact (List.mem_filter.mp this).1
    have hne : (attCandidates tx txDate atts).isEmpty = false :=
      List.isEmpty_eq_false.mpr (List.ne_nil_of_mem hcmem)
    rw [hne]
    simp only [Bool.false_eq_true, if_false]
    rw [hE]
    simp
  · intro hlen htop
    have hEne : (attCandidates tx txDate atts).filter (fun x => x.dist = 0) ≠ [] := by
      intro h
      rw [h] at hlen
      simp at hlen
    obtain ⟨c, hcmem⟩ := List.exists_mem_of_ne_nil _ hEne
    have hne : (attCandidates tx txDate atts).isEmpty = false :=
      List.isEmpty_eq_false.mpr
        (List.ne_nil_of_mem (List.mem_filter.mp hcmem).1)
    rw [hne]
    simp only [Bool.false_eq_true, if_false]
    rw [if_neg (by omega), if_pos (by simpa using hEne), if_neg htop]

/-- C10 (implicit): without a contact, every candidate's name similarity is
`0`, so every exact-date candidate scores exactly `2`; hence whenever two or
more exact-date candidates exist the `|score - 2| < 1e-6` refinement keeps
all of them and the no-contact branch returns `none` — it can never select
among multiple exact-date candidates. -/
theorem C10_no_contact_score_collapse (tx : Transaction) (atts : List Attachment)
    (txDate : Nat)
    (hrp : refPhaseA tx atts = none)
    (hpd : _parse_date tx.date = some txDate)
    (hc : strTruthy tx.contact = false) :
    (∀ c ∈ attCandidates tx txDate atts, c.dist = 0 → c.score = 2) ∧
    (2 ≤ ((attCandidates tx txDate atts).filter (fun x => x.dist = 0)).length →
      find_attachment tx atts = none) := by
  have hscore2 : ∀ c ∈ attCandidates tx txDate atts, c.dist = 0 → c.score = 2 := by
    intro c hcmem hdist
    obtain ⟨-, -, -, hscore⟩ := (attCandidates_mem_iff tx txDate atts c).mp hcmem
    rw [hscore, hdist]
    unfold _best_name_similarity
    rw [hc]
    unfold dateBonus
    norm_num
  refine ⟨hscore2, ?_⟩
  intro hlen
  rw [find_attachment_phase2 tx atts txDate hrp hpd, hc]
  have hEne : (attCandidates tx txDate atts).filter (fun x => x.dist = 0) ≠ [] := by
    intro h
    rw [h] at hlen
    simp at hlen
  obtain ⟨c, hcmem⟩ := List.exists_mem_of_ne_nil _ hEne
  have hne : (attCandidates tx txDate atts).isEmpty = false :=
    List.isEmpty_eq_false.mpr
      (List.ne_nil_of_mem (List.mem_filter.mp hcmem).1)
  rw [hne]
  simp only [Bool.false_eq_true, if_false]
  have htopAll : ((attCandidates tx txDate atts).filter (fun x => x.dist = 0)).filter
      (fun x => |x.score - (1 + 0 + 1)| < eps)
      = (attCandidates tx txDate atts).filter (fun x => x.dist = 0) := by
    rw [List.filter_eq_self]
    intro a hamem
    have h0 : a.dist = 0 := by simpa using (List.mem_filter.mp hamem).2
    have h2 : a.score = 2 := hscore2 a (List.mem_filter.mp hamem).1 h0
    rw [h2]
    simp only [decide_eq_true_eq]
    norm_num [eps]
  rw [if_neg (by omega), if_pos (by simpa using hEne), htopAll, if_neg (by omega)]

/-- C3: with a contact present, `find_attachment` keeps exactly the
amount-matched candidates whose best name similarity is at least `0.5`
(so a similarity of exactly `0.5` passes and anything strictly below is
excluded) and returns the top-ranked survivor; if no candidate reaches
`0.5` the result is `none` even though amount matches exist. -/
theorem C3_threshold_boundary (tx : Transaction) (atts : List Attachment)
    (txDate : Nat)
    (hrp : refPhaseA tx atts = none)
    (hpd : _parse_date tx.date = some txDate)
    (hc : strTruthy tx.contact = true) :
    (find_attachment tx atts =
      (if ((attCandidates tx txDate atts).filter
            (fun c => _best_name_similarity tx.contact c.item ≥ 1 / 2)).isEmpty then none
       else (selectBest (fun a => a.id)
          ((attCandidates tx txDate atts).filter
            (fun c => _best_name_similarity tx.contact c.item ≥ 1 / 2))).map
          (fun c => c.item))) ∧
    (∀ c ∈ attCandidates tx txDate atts,
        _best_name_similarity tx.contact c.item = 1 / 2 →
        c ∈ (attCandidates tx txDate atts).filter
          (fun c => _best_name_similarity tx.contact c.item ≥ 1 / 2)) ∧
    (∀ c ∈ attCandidates tx txDate atts,
        _best_name_similarity tx.contact c.item < 1 / 2 →
        c ∉ (attCandidates tx txDate atts).filter
          (fun c => _best_name_similarity tx.contact c.item ≥ 1 / 2)) ∧
    ((∀ c ∈ attCandidates tx txDate atts,
        _best_name_similarity tx.contact c.item < 1 / 2) →
      find_attachment tx atts = none) := by
  have hmain : find_attachment tx atts =
      (if ((attCandidates tx txDate atts).filter
            (fun c => _best_name_similarity tx.contact c.item ≥ 1 / 2)).isEmpty then none
       else (selectBest (fun a => a.id)
          ((attCandidates tx txDate atts).filter
            (fun c => _best_name_similarity tx.contact c.item ≥ 1 / 2))).map
          (fun c => c.item)) := by
    rw [find_attachment_phase2 tx atts txDate hrp hpd, hc]
    by_cases hce : (attCandidates tx txDate atts).isEmpty
    · have hnil : attCandidates tx txDate atts = [] := by simpa using hce
      rw [hnil]
      simp
    · rw [if_neg hce]
      simp
  refine ⟨hmain, ?_, ?_, ?_⟩
  · intro c hcmem hhalf
    exact List.mem_filter.mpr ⟨hcmem, by simp [hhalf]⟩
  · intro c hcmem hlt hmem
    have hge := (List.mem_filter.mp hmem).2
    simp only [decide_eq_true_eq, ge_iff_le] at hge
    exact absurd hge (not_le.mpr hlt)
  · intro hall
    rw [hmain]
    have : (attCandidates tx txDate atts).filter
        (fun c => _best_name_similarity tx.contact c.item ≥ 1 / 2) = [] := by
      rw [List.filter_eq_nil_iff]
      intro a hamem
      simp only [decide_eq_true_eq, not_le]
      exact hall a hamem
    rw [this]
    simp

/-- Witness for C2: a no-contact transaction against two same-amount
attachments sharing its date resolves to `none`; against a list where only
one attachment is exact-date it resolves to that attachment. -/
theorem C2_no_contact_ambiguity_witness :
    find_attachment wTx2 [wAtt1, wAtt2] = none ∧
    find_attachment wTx2 [wAtt1, wAtt3] = some wAtt1 := by
  constructor
  · exact (C2_no_contact_ambiguity wTx2 [wAtt1, wAtt2] 2460320
      (by decide) (by decide) (by decide)).2
      (by decide) (by decide)
  · exact (C2_no_contact_ambiguity wTx2 [wAtt1, wAtt3] 2460320
      (by decide) (by decide) (by decide)).1
      ⟨wAtt1, 1 + 0 + dateBonus 0, 0⟩ (by decide)

/-- Witness for C10: with the attachment order reversed, two exact-date
amount matches still collapse to `none`, and the exact-date candidate's
score is exactly `2`. -/
theorem C10_no_contact_score_collapse_witness :
    find_attachment wTx2 [wAtt2, wAtt1] = none :=
  (C10_no_contact_score_collapse wTx2 [wAtt2, wAtt1] 2460320
    (by decide) (by decide) (by decide)).2 (by decide)

/-- Witness for C3: a contact whose best name similarity is exactly `1/2`
is accepted and its attachment returned; a contact strictly below `1/2`
yields `none` although an amount match exists. -/
theorem C3_threshold_boundary_witness :
    find_attachment wTx3 [wAtt1, wAtt3] = some wAtt3 ∧
    find_attachment wTx4 [wAtt1, wAtt3] = none := by
  constructor
  · rw [(C3_threshold_boundary wTx3 [wAtt1, wAtt3] 2460325
      (by decide) (by decide) (by decide)).1]
    decide
  · exact (C3_threshold_boundary wTx4 [wAtt1, wAtt3] 2460325
      (by decide) (by decide) (by decide)).2.2.2 (by decide)

/-- `filterMap` ignores elements the function maps to `none`, so it can be
computed on the sub-list where a guard holds. -/
theorem filterMap_eq_filterMap_filter {α β : Type} (f : α → Option β)
    (p : α → Bool) (h : ∀ x, p x = false → f x = none) (l : List α) :
    l.filterMap f = (l.filter p).filterMap f := by
  induction l with
  | nil => rfl
  | cons x xs ih =>
    by_cases hp : p x
    · rw [List.filter_cons_of_pos hp, List.filterMap_cons, List.filterMap_cons, ih]
    · rw [List.filter_cons_of_neg (by simpa using hp), List.filterMap_cons,
        h x (by simpa using hp), ih]

/-- C4: asymmetric missing-date policy — if the reference phase of
`find_attachment` fails and the transaction's date does not parse, the
result is `none`; in `find_transaction`, transactions without a parseable
date are merely dropped from the candidate set (the candidates are exactly
those built from the parseable-date sub-list, and every candidate's date
parses). -/
theorem C4_missing_date_asymmetry (tx : Transaction) (atts : List Attachment)
    (att : Attachment) (txs : List Transaction)
    (hrp : refPhaseA tx atts = none) (hpd : _parse_date tx.date = none) :
    find_attachment tx atts = none ∧
    txCandidates att txs =
      txCandidates att (txs.filter (fun t => (_parse_date t.date).isSome)) ∧
    (∀ c ∈ txCandidates att txs, (_parse_date c.item.date).isSome) := by
  refine ⟨?_, ?_, ?_⟩
  · unfold find_attachment
    rw [hrp, hpd]
  · unfold txCandidates
    apply filterMap_eq_filterMap_filter
    intro x hx
    have hxnone : _parse_date x.date = none := by
      rcases hpx : _parse_date x.date with _ | d
      · rfl
      · rw [hpx] at hx
        simp at hx
    by_cases hamt : _is_amount_match x att
    · rw [if_pos hamt, hxnone]
    · rw [if_neg hamt]
  · intro c hcmem
    obtain ⟨-, -, txDate, hpdc, -, -⟩ := (txCandidates_mem_iff att txs c).mp hcmem
    rw [hpdc]
    rfl

/-- Witness for C4: an unparsable transaction date aborts `find_attachment`,
while `find_transaction` still considers the remaining transactions. -/
theorem C4_missing_date_asymmetry_witness :
    find_attachment wTxNoDate [wAtt1, wAtt2] = none ∧
    txCandidates wAtt2 [wTxNoDate, wTx2] =
      txCandidates wAtt2 ([wTxNoDate, wTx2].filter
        (fun t => (_parse_date t.date).isSome)) := by
  have h := C4_missing_date_asymmetry wTxNoDate [wAtt1, wAtt2] wAtt2
    [wTxNoDate, wTx2] (by decide) (by decide)
  exact ⟨h.1, h.2.1⟩

/-- C5 counterexample: the code strips only the space character `' '`, not
all whitespace — a tab survives `_normalize_reference`, so the claim's
"strips all whitespace" fails, and a reference differing only by a tab does
not normalize-equal its spaceless form. -/
theorem C5_counterexample_tab :
    _normalize_reference (some "1\t2") = some "1\t2" ∧
    normalizeReference_specAllWhitespace (some "1\t2") = some "12" ∧
    _normalize_reference (some "1\t2") ≠
      normalizeReference_specAllWhitespace (some "1\t2") ∧
    _normalize_reference (some "123\t") ≠ _normalize_reference (some "123") := by
  refine ⟨by decide, by decide, by decide, by decide⟩

/-- C5 amended: `_normalize_reference` returns `none` for missing/empty
input; otherwise it strips all *space characters* (`' '` only — other
whitespace such as tabs is preserved), uppercases, and strips leading zeros
of an all-digit result, an all-zero result collapsing to `"0"`; in
particular `"00123"` normalizes to `"123"` and `"123"`/`"123 "`
normalize-equal. -/
theorem C5_amended_normalize :
    _normalize_reference none = none ∧
    _normalize_reference (some "") = none ∧
    (∀ s t : String, s.data ≠ [] ∨ t.data ≠ [] →
       _normalize_reference (some (s ++ " " ++ t)) =
         _normalize_reference (some (s ++ t))) ∧
    (∀ s : String, s.data ≠ [] → s.data.filter (fun c => c ≠ ' ') = [] →
       _normalize_reference (some s) = some "") ∧
    (∀ s : String, s.data ≠ [] →
       ((s.data.filter (fun c => c ≠ ' ')).map Char.toUpper).all Char.isDigit
           = false →
       _normalize_reference (some s) =
         some (String.mk ((s.data.filter (fun c => c ≠ ' ')).map Char.toUpper))) ∧
    (∀ s : String, s.data ≠ [] →
       (s.data.filter (fun c => c ≠ ' ')).map Char.toUpper ≠ [] →
       ((s.data.filter (fun c => c ≠ ' ')).map Char.toUpper).all Char.isDigit
           = true →
       _normalize_reference (some s) =
         some (String.mk
           (if (((s.data.filter (fun c => c ≠ ' ')).map Char.toUpper).dropWhile
                  (fun c => c = '0')).isEmpty then ['0']
            else ((s.data.filter (fun c => c ≠ ' ')).map Char.toUpper).dropWhile
              (fun c => c = '0')))) ∧
    _normalize_reference (some "00123") = some "123" ∧
    _normalize_reference (some "000") = some "0" ∧
    _normalize_reference (some "123 ") = _normalize_reference (some "123") ∧
    _normalize_reference (some "rf12 34") = some "RF1234" ∧
    _normalize_reference (some "Rf007") = some "RF007" := by
  refine ⟨by decide, by decide, ?_, ?_, ?_, ?_,
    by decide, by decide, by decide, by decide, by decide⟩
  · intro s t hst
    rcases s with ⟨ls⟩
    rcases t with ⟨lt⟩
    show _normalize_reference (some (String.mk (ls ++ [' '] ++ lt))) =
      _normalize_reference (some (String.mk (ls ++ lt)))
    unfold _normalize_reference
    dsimp only
    have h1 : (ls ++ [' '] ++ lt).isEmpty = false := by
      simp
    have h2 : (ls ++ lt).isEmpty = false := by
      rcases hst with h | h <;> simp [h]
    rw [h1, h2]
    have hfe : (ls ++ [' '] ++ lt).filter (fun c => c ≠ ' ') =
        (ls ++ lt).filter (fun c => c ≠ ' ') := by
      simp [List.filter_append]
    simp only [Bool.false_eq_true, if_false, hfe]
  · intro s hne hsp
    rcases s with ⟨l⟩
    dsimp only at hne hsp ⊢
    unfold _normalize_reference
    dsimp only
    rw [if_neg (by simpa using hne), hsp]
    rfl
  · intro s hne hnd
    rcases s with ⟨l⟩
    dsimp only at hne hnd ⊢
    unfold _normalize_reference
    dsimp only
    rw [if_neg (by simpa using hne), if_neg (by rw [hnd]; simp)]
  · intro s hne hcl hall
    rcases s with ⟨l⟩
    dsimp only at hne hcl hall ⊢
    unfold _normalize_reference
    dsimp only
    rw [if_neg (by simpa using hne),
      if_pos (by rw [hall, List.isEmpty_eq_false.mpr hcl]; rfl)]

/-- Witness for C5's amended universal clauses at concrete inputs: a space
in the middle is ignored, a reference with letters is uppercased with its
digits preserved, and an all-digit reference has its leading zeros
stripped. -/
theorem C5_amended_normalize_witness :
    _normalize_reference (some ("12" ++ " " ++ "3")) =
      _normalize_reference (some ("12" ++ "3")) ∧
    _normalize_reference (some "rf12 34") =
      some (String.mk ((("rf12 34" : String).data.filter
        (fun c => c ≠ ' ')).map Char.toUpper)) ∧
    _normalize_reference (some "00123") =
      some (String.mk
        (if ((("00123" : String).data.filter (fun c => c ≠ ' ')).map
              Char.toUpper).dropWhile (fun c => c = '0') |>.isEmpty then ['0']
         else ((("00123" : String).data.filter (fun c => c ≠ ' ')).map
           Char.toUpper).dropWhile (fun c => c = '0'))) :=
  ⟨C5_amended_normalize.2.2.1 "12" "3" (by decide),
   C5_amended_normalize.2.2.2.2.1 "rf12 34" (by decide) (by decide),
   C5_amended_normalize.2.2.2.2.2.1 "00123" (by decide) (by decide) (by decide)⟩

/-- C6: in both directions every amount-matched candidate's composite score
is `1 + nameSimilarity + dateBonus`, with the name similarity and the date
bonus each in `[0,1]` (`dateBonus d = 1 - d/30` for `d ≤ 30`, else `0`), so
every composite score lies in `[1,3]`. -/
theorem C6_composite_score (tx : Transaction) (txDate : Nat)
    (atts : List Attachment) (att : Attachment) (txs : List Transaction) :
    (∀ d : Nat, dateBonus d = if d ≤ 30 then 1 - (d : ℚ) / 30 else 0) ∧
    (∀ c ∈ attCandidates tx txDate atts,
        c.score = 1 + _best_name_similarity tx.contact c.item + dateBonus c.dist ∧
        0 ≤ _best_name_similarity tx.contact c.item ∧
        _best_name_similarity tx.contact c.item ≤ 1 ∧
        0 ≤ dateBonus c.dist ∧ dateBonus c.dist ≤ 1 ∧
        1 ≤ c.score ∧ c.score ≤ 3) ∧
    (∀ c ∈ txCandidates att txs,
        c.score = 1 + _best_name_similarity c.item.contact att + dateBonus c.dist ∧
        0 ≤ _best_name_similarity c.item.contact att ∧
        _best_name_similarity c.item.contact att ≤ 1 ∧
        0 ≤ dateBonus c.dist ∧ dateBonus c.dist ≤ 1 ∧
        1 ≤ c.score ∧ c.score ≤ 3) := by
  refine ⟨fun d => rfl, ?_, ?_⟩
  · intro c hcmem
    obtain ⟨-, -, -, hscore⟩ := (attCandidates_mem_iff tx txDate atts c).mp hcmem
    have hn0 := best_name_similarity_nonneg tx.contact c.item
    have hn1 := best_name_similarity_le_one tx.contact c.item
    have hd0 := dateBonus_nonneg c.dist
    have hd1 := dateBonus_le_one c.dist
    exact ⟨hscore, hn0, hn1, hd0, hd1, by rw [hscore]; linarith, by rw [hscore]; linarith⟩
  · intro c hcmem
    obtain ⟨-, -, txd, -, -, hscore⟩ := (txCandidates_mem_iff att txs c).mp hcmem
    have hn0 := best_name_similarity_nonneg c.item.contact att
    have hn1 := best_name_similarity_le_one c.item.contact att
    have hd0 := dateBonus_nonneg c.dist
    have hd1 := dateBonus_le_one c.dist
    exact ⟨hscore, hn0, hn1, hd0, hd1, by rw [hscore]; linarith, by rw [hscore]; linarith⟩

/-- Witness for C6 at a concrete candidate: distance 0, similarity `1/2`,
score `5/2 ∈ [1,3]`. -/
theorem C6_composite_score_witness :
    wCand3.score = 1 + _best_name_similarity wTx3.contact wCand3.item +
      dateBonus wCand3.dist ∧
    0 ≤ _best_name_similarity wTx3.contact wCand3.item ∧
    _best_name_similarity wTx3.contact wCand3.item ≤ 1 ∧
    0 ≤ dateBonus wCand3.dist ∧ dateBonus wCand3.dist ≤ 1 ∧
    1 ≤ wCand3.score ∧ wCand3.score ≤ 3 :=
  (C6_composite_score wTx3 2460325 [wAtt3] wAtt2 []).2.1 wCand3 (by decide)

/-- C7: whenever a ranked selection is made, the selected candidate is the
head of the `(-score, dateDistance, id)` ordering: it is a member of the
list, no list element strictly precedes it, and — when the record ids are
unique, making the order total — it strictly precedes every other element,
so the selection is uniquely determined; the selection is `none` exactly on
the empty list. -/
theorem C7_deterministic_ranking {α : Type} (recId : α → Int)
    (l : List (Scored α)) (hnd : (l.map (fun x => recId x.item)).Nodup) :
    (selectBest recId l = none ↔ l = []) ∧
    (∀ c, selectBest recId l = some c →
        c ∈ l ∧ (∀ y ∈ l, ¬ scoredLt recId y c) ∧
        (∀ y ∈ l, y ≠ c → scoredLt recId c y)) :=
  ⟨selectBest_eq_none recId l,
   fun _ h => ⟨selectBest_mem recId h, selectBest_not_beaten recId h,
     selectBest_strict recId hnd h⟩⟩

/-- Witness for C7 on a concrete two-element candidate list: the higher
score wins regardless of position, membership and strict dominance hold. -/
theorem C7_deterministic_ranking_witness :
    (⟨wAtt3, 5 / 2, 0⟩ : Scored Attachment) ∈
      [(⟨wAtt1, 2, 3⟩ : Scored Attachment), ⟨wAtt3, 5 / 2, 0⟩] ∧
    (∀ y ∈ [(⟨wAtt1, 2, 3⟩ : Scored Attachment), ⟨wAtt3, 5 / 2, 0⟩],
        ¬ scoredLt (fun a => a.id) y ⟨wAtt3, 5 / 2, 0⟩) ∧
    (∀ y ∈ [(⟨wAtt1, 2, 3⟩ : Scored Attachment), ⟨wAtt3, 5 / 2, 0⟩],
        y ≠ ⟨wAtt3, 5 / 2, 0⟩ → scoredLt (fun a => a.id) ⟨wAtt3, 5 / 2, 0⟩ y) :=
  (C7_deterministic_ranking (fun a => a.id)
      [⟨wAtt1, 2, 3⟩, ⟨wAtt3, 5 / 2, 0⟩] (by decide)).2
    ⟨wAtt3, 5 / 2, 0⟩ (by decide)

/-- Phase 2 of `find_transaction`, spelled out, once the reference phase has
failed. -/
theorem find_transaction_phase2 (att : Attachment) (txs : List Transaction)
    (hrp : refPhaseT att txs = none) :
    find_transaction att txs =
      (if (txCandidates att txs).isEmpty then none
       else
         match (if (!(_attachment_names att).isEmpty) &&
                   !((txCandidates att txs).filter
                      (fun c => strTruthy c.item.contact)).isEmpty then
                  (if (((txCandidates att txs).filter
                        (fun c => strTruthy c.item.contact)).filter
                          (fun c => c.score ≥ 3 / 2)).isEmpty then none
                   else (selectBest (fun t => t.id)
                      (((txCandidates att txs).filter
                        (fun c => strTruthy c.item.contact)).filter
                          (fun c => c.score ≥ 3 / 2))).map (fun c => c.item))
                else none) with
         | some t => some t
         | none =>
           if ((txCandidates att txs).filter (fun c => c.dist = 0)).length = 1 then
             ((txCandidates att txs).filter (fun c => c.dist = 0)).head?.map
               (fun c => c.item)
           else none) := by
  unfold find_transaction
  rw [hrp]

/-- C8: `find_transaction` acceptance policy — when the attachment has
counterparty names, some candidate carries a contact, and the `score ≥ 1.5`
filter over the with-contact candidates is non-empty, the top-ranked
qualifier is returned; otherwise the engine falls back to strict same-day
uniqueness over all amount-matched candidates. -/
theorem C8_transaction_acceptance (att : Attachment) (txs : List Transaction)
    (hrp : refPhaseT att txs = none) :
    ((_attachment_names att ≠ [] ∧
      (txCandidates att txs).filter (fun c => strTruthy c.item.contact) ≠ [] ∧
      ((txCandidates att txs).filter (fun c => strTruthy c.item.contact)).filter
          (fun c => c.score ≥ 3 / 2) ≠ []) →
      find_transaction att txs =
        (selectBest (fun t => t.id)
          (((txCandidates att txs).filter (fun c => strTruthy c.item.contact)).filter
            (fun c => c.score ≥ 3 / 2))).map (fun c => c.item)) ∧
    ((_attachment_names att = [] ∨
      (txCandidates att txs).filter (fun c => strTruthy c.item.contact) = [] ∨
      ((txCandidates att txs).filter (fun c => strTruthy c.item.contact)).filter
          (fun c => c.score ≥ 3 / 2) = []) →
      find_transaction att txs =
        (if ((txCandidates att txs).filter (fun c => c.dist = 0)).length = 1 then
          ((txCandidates att txs).filter (fun c => c.dist = 0)).head?.map
            (fun c => c.item)
        else none)) := by
  rw [find_transaction_phase2 att txs hrp]
  constructor
  · rintro ⟨hnames, hwc, hfil⟩
    have hcne : (txCandidates att txs).isEmpty = false := by
      rw [List.isEmpty_eq_false]
      intro hnil
      apply hwc
      rw [hnil]
      rfl
    rw [hcne]
    simp only [Bool.false_eq_true, if_false]
    rw [if_pos (by simp [hnames, hwc]), if_neg (by simpa using hfil)]
    have hsb : selectBest (fun t : Transaction => t.id)
        (((txCandidates att txs).filter (fun c => strTruthy c.item.contact)).filter
          (fun c => c.score ≥ 3 / 2)) ≠ none := by
      rw [Ne, selectBest_eq_none]
      exact hfil
    obtain ⟨b, hb⟩ := Option.ne_none_iff_exists'.mp hsb
    rw [hb]
    rfl
  · intro hdisj
    by_cases hce : (txCandidates att txs).isEmpty
    · have hnil : txCandidates att txs = [] := by simpa using hce
      rw [hnil]
      simp
    · rw [if_neg hce]
      have hvn : (if (!(_attachment_names att).isEmpty) &&
          !((txCandidates att txs).filter (fun c => strTruthy c.item.contact)).isEmpty then
            (if (((txCandidates att txs).filter (fun c => strTruthy c.item.contact)).filter
                  (fun c => c.score ≥ 3 / 2)).isEmpty then none
             else (selectBest (fun t => t.id)
                (((txCandidates att txs).filter (fun c => strTruthy c.item.contact)).filter
                  (fun c => c.score ≥ 3 / 2))).map (fun c => c.item))
          else none) = none := by
        rcases hdisj with h | h | h
        · rw [if_neg (by simp [h])]
        · rw [if_neg (by simp [h])]
        · by_cases hg : (!(_attachment_names att).isEmpty) &&
              !((txCandidates att txs).filter (fun c => strTruthy c.item.contact)).isEmpty
          · rw [if_pos hg, if_pos (by simpa using h)]
          · rw [if_neg hg]
      rw [hvn]

/-- Witness for C8: with names and a qualifying contact the ranked filter
decides (`wTx3` is returned over `wTx4`); with no candidate carrying a
contact the same-day uniqueness fallback decides. -/
theorem C8_transaction_acceptance_witness :
    find_transaction wAtt3 [wTx4, wTx3] = some wTx3 ∧
    find_transaction wAtt2 [wTx2] = some wTx2 := by
  constructor
  · rw [(C8_transaction_acceptance wAtt3 [wTx4, wTx3] (by decide)).1
      ⟨by decide, by decide, by decide⟩]
    decide
  · rw [(C8_transaction_acceptance wAtt2 [wTx2] (by decide)).2
      (Or.inr (Or.inl (by decide)))]
    decide

/-- Any attachment returned by `find_attachment` comes from the input
list. -/
theorem find_attachment_mem {tx : Transaction} {atts : List Attachment}
    {a : Attachment} (h : find_attachment tx atts = some a) : a ∈ atts := by
  cases hrp : refPhaseA tx atts with
  | some b =>
    rw [find_attachment_of_refPhase hrp] at h
    injection h with hba
    subst hba
    unfold refPhaseA at hrp
    split at hrp
    · exact List.mem_of_find?_eq_some hrp
    · simp at hrp
  | none =>
    cases hpd : _parse_date tx.date with
    | none =>
      have hnone : find_attachment tx atts = none := by
        unfold find_attachment
        rw [hrp, hpd]
      rw [hnone] at h
      simp at h
    | some txDate =>
      rw [find_attachment_phase2 tx atts txDate hrp hpd] at h
      split at h
      · simp at h
      · split at h
        · split at h
          · simp at h
          · obtain ⟨c, hc, hca⟩ := Option.map_eq_some'.mp h
            have hcmem := selectBest_mem _ hc
            have hin := (List.mem_filter.mp hcmem).1
            rw [← hca]
            exact ((attCandidates_mem_iff tx txDate atts c).mp hin).1
        · split at h
          · rename_i hlen
            obtain ⟨c, hc, hca⟩ := Option.map_eq_some'.mp h
            have hcmem : c ∈ (attCandidates tx txDate atts).filter
                (fun x => x.dist = 0) := by
              obtain ⟨x, hx⟩ := List.length_eq_one.mp hlen
              rw [hx] at hc ⊢
              simp only [List.head?_cons, Option.some.injEq] at hc
              rw [hc]
              exact List.mem_singleton.mpr rfl
            have hin := (List.mem_filter.mp hcmem).1
            rw [← hca]
            exact ((attCandidates_mem_iff tx txDate atts c).mp hin).1
          · split at h
            · split at h
              · obtain ⟨c, hc, hca⟩ := Option.map_eq_some'.mp h
                have hcmem := selectBest_mem _ hc
                have hin := (List.mem_filter.mp hcmem).1
                rw [← hca]
                exact ((attCandidates_mem_iff tx txDate atts c).mp hin).1
              · simp at h
            · simp at h

/-- Any transaction returned by `find_transaction` comes from the input
list. -/
theorem find_transaction_mem {att : Attachment} {txs : List Transaction}
    {t : Transaction} (h : find_transaction att txs = some t) : t ∈ txs := by
  cases hrp : refPhaseT att txs with
  | some b =>
    rw [find_transaction_of_refPhase hrp] at h
    injection h with hbt
    subst hbt
    unfold refPhaseT at hrp
    split at hrp
    · exact List.mem_of_find?_eq_some hrp
    · simp at hrp
  | none =>
    rw [find_transaction_phase2 att txs hrp] at h
    split at h
    · simp at h
    · split at h
      · rename_i t' hvn
        injection h with ht'
        subst ht'
        split at hvn
        · split at hvn
          · simp at hvn
          · obtain ⟨c, hc, hca⟩ := Option.map_eq_some'.mp hvn
            have hcmem := selectBest_mem _ hc
            have h1 := (List.mem_filter.mp hcmem).1
            have h2 := (List.mem_filter.mp h1).1
            rw [← hca]
            exact ((txCandidates_mem_iff att txs c).mp h2).1
        · simp at hvn
      · split at h
        · rename_i hlen
          obtain ⟨c, hc, hca⟩ := Option.map_eq_some'.mp h
          have hcmem : c ∈ (txCandidates att txs).filter (fun x => x.dist = 0) := by
            obtain ⟨x, hx⟩ := List.length_eq_one.mp hlen
            rw [hx] at hc ⊢
            simp only [List.head?_cons, Option.some.injEq] at hc
            rw [hc]
            exact List.mem_singleton.mpr rfl
          have hin := (List.mem_filter.mp hcmem).1
          rw [← hca]
          exact ((txCandidates_mem_iff att txs c).mp hin).1
        · simp at h

/-- C9: graceful degradation — both engine functions always return either
`none` or a record of the input list (the embedding is total, so no
exception can arise), and an attachment none of whose dates parse receives
the `10000`-day sentinel distance, hence no date bonus and never an
exact-date match. -/
theorem C9_graceful_degradation (tx : Transaction) (atts : List Attachment)
    (att : Attachment) (txs : List Transaction) (d : Nat) :
    (find_attachment tx atts = none ∨
      ∃ a ∈ atts, find_attachment tx atts = some a) ∧
    (find_transaction att txs = none ∨
      ∃ t ∈ txs, find_transaction att txs = some t) ∧
    (_parse_date att.data.due_date = none →
      _parse_date att.data.invoicing_date = none →
      _parse_date att.data.receiving_date = none →
      _date_distance_days d att = 10000 ∧ dateBonus 10000 = 0 ∧
        (10000 : Nat) ≠ 0) := by
  refine ⟨?_, ?_, ?_⟩
  · cases hfa : find_attachment tx atts with
    | none => exact Or.inl rfl
    | some a => exact Or.inr ⟨a, find_attachment_mem hfa, rfl⟩
  · cases hft : find_transaction att txs with
    | none => exact Or.inl rfl
    | some t => exact Or.inr ⟨t, find_transaction_mem hft, rfl⟩
  · intro h1 h2 h3
    refine ⟨?_, by norm_num [dateBonus], by norm_num⟩
    unfold _date_distance_days
    rw [h1, h2, h3]
    rfl

/-- Witness for C9: both directions produce a member-or-`none` on concrete
input, and a concrete attachment with no parseable dates gets the sentinel
distance. -/
theorem C9_graceful_degradation_witness :
    (find_attachment wTx2 [wAtt1] = none ∨
      ∃ a ∈ [wAtt1], find_attachment wTx2 [wAtt1] = some a) ∧
    (find_transaction wAttND [wTx2] = none ∨
      ∃ t ∈ [wTx2], find_transaction wAttND [wTx2] = some t) ∧
    (_date_distance_days 5 wAttND = 10000 ∧ dateBonus 10000 = 0 ∧
      (10000 : Nat) ≠ 0) := by
  have h := C9_graceful_degradation wTx2 [wAtt1] wAttND [wTx2] 5
  exact ⟨h.1, h.2.1, h.2.2 (by decide) (by decide) (by decide)⟩

end MatchSpec
